import Mathlib

/-!
Verification of the GraphRAG retrieval and evaluation core.

Python strings are modelled as `List Char`; Python floats as exact numbers
(`ℚ` where the code only performs field arithmetic, `ℝ` where it takes
logarithms or square roots); Python dicts with a fixed key set as structures.
Each Lean definition is a shallow embedding of the correspondingly named
Python function of the repository.
-/

namespace GraphRAG

/-- A Python string: its sequence of characters. -/
abbrev Str := List Char

/-- Python `s.lower()` (character-wise lowering). -/
def toLowerStr (s : Str) : Str := s.map Char.toLower

/-- Python substring membership `needle in hay`. -/
def containsSub (needle : Str) : Str → Bool
  | [] => needle.isEmpty
  | c :: t => needle.isPrefixOf (c :: t) || containsSub needle t

/-- Helper for `words`: accumulates the current (reversed) word. -/
def wordsAux (acc : Str) : Str → List Str
  | [] => if acc.isEmpty then [] else [acc.reverse]
  | c :: t =>
    if c.isWhitespace then
      if acc.isEmpty then wordsAux [] t else acc.reverse :: wordsAux [] t
    else wordsAux (c :: acc) t

/-- Python `s.split()`: split on whitespace runs, dropping empty pieces. -/
def words (s : Str) : List Str := wordsAux [] s

/-- Split a string at every character satisfying `p`, keeping (possibly
empty) segments between consecutive delimiters. -/
def splitOnPred (p : Char → Bool) : Str → List Str
  | [] => [[]]
  | c :: t =>
    if p c then [] :: splitOnPred p t
    else
      match splitOnPred p t with
      | [] => [[c]]
      | s :: rest => (c :: s) :: rest

/-- Python `s.strip()`: remove leading and trailing whitespace. -/
def stripStr (s : Str) : Str :=
  ((s.dropWhile Char.isWhitespace).reverse.dropWhile Char.isWhitespace).reverse

/-- Python `[s.strip() for s in re.split(r'[.!?]+', text) if s.strip()]` —
sentence segmentation as used by the evaluator.  Splitting on each single
delimiter and then discarding empty stripped pieces coincides with
splitting on delimiter runs. -/
def sentencesOf (s : Str) : List Str :=
  ((splitOnPred (fun c => c == '.' || c == '!' || c == '?') s).map stripStr).filter
    (fun x => !x.isEmpty)

/-- A regex `\w` character (ASCII model): alphanumeric or underscore. -/
def isWordChar (c : Char) : Bool := c.isAlphanum || c == '_'

/-- Python `SearchEvaluator._tokenize`: replace non-word non-space characters by a
space, split on whitespace, keep tokens longer than 2 characters. -/
def tokenize (text : Str) : List Str :=
  let cleaned := text.map (fun c => if isWordChar c || c.isWhitespace then c else ' ')
  (words cleaned).filter (fun t => 2 < t.length)

/-- Python `set(self._tokenize(s.lower()))` — the token set of a string. -/
def tokensLower (s : Str) : Finset Str := (tokenize (toLowerStr s)).toFinset

/-- Python slice `l[-k:]` for `k ≥ 0` (`k = 0` yields the whole list). -/
def pySliceLast {α : Type} (l : List α) (k : ℕ) : List α :=
  if k = 0 then l else l.drop (l.length - k)

namespace QueryProcessor

/-- Python `QueryProcessor.local_keywords`. -/
def local_keywords : List Str :=
  ["who", "what is", "where", "when", "specific", "detail",
   "example", "how does", "define", "describe"].map String.toList

/-- Python `QueryProcessor.global_keywords`. -/
def global_keywords : List Str :=
  ["overview", "summary", "general", "main themes",
   "compare", "contrast", "relationship between",
   "what are all", "list all", "categorize"].map String.toList

/-- Python `QueryProcessor.classify`, translated from the source: count keyword
substring matches in the lower-cased query, prefer the strictly larger
count, and break ties by the whitespace-token length of the query. -/
def classify (query : Str) : Str :=
  let query_lower := toLowerStr query
  let local_score := (local_keywords.filter (fun kw => containsSub kw query_lower)).length
  let global_score := (global_keywords.filter (fun kw => containsSub kw query_lower)).length
  if local_score < global_score then "global".toList
  else if global_score < local_score then "local".toList
  else if 10 < (words query).length then "global".toList
  else "local".toList

/-- The classification rule as the specification words it: strictly more
local matches give `local`, strictly more global matches give `global`, and
a tie falls back to the >10-token length test. -/
def claimClassify (query : Str) : Str :=
  let query_lower := toLowerStr query
  let local_score := (local_keywords.filter (fun kw => containsSub kw query_lower)).length
  let global_score := (global_keywords.filter (fun kw => containsSub kw query_lower)).length
  if global_score < local_score then "local".toList
  else if local_score < global_score then "global".toList
  else if 10 < (words query).length then "global".toList
  else "local".toList

end QueryProcessor

namespace ContextBuilder

/-- One `(neighbor, relationship_label)` record of an entity's graph
context, as attached by local search. -/
structure CBRelationship where
  neighbor : Str
  relationship : Str

/-- The `graph_context` dictionary of an entity result. -/
structure CBGraphContext where
  neighbors : List Str
  relationships : List CBRelationship
  degree : ℕ

/-- A search result as consumed by `ContextBuilder.build_local_context`:
its `type`, `content`, `metadata.get('name', '')` and optional
`graph_context`. -/
structure CBResult where
  rtype : Str
  content : Str
  name : Str
  graph_context : Option CBGraphContext

/-- The `[Source N]` block rendered for a chunk result at position `i`. -/
def chunkBlock (i : ℕ) (r : CBResult) : Str :=
  "[Source ".toList ++ (Nat.repr (i + 1)).toList ++ "]\n".toList ++ r.content

/-- The `[Entity: name]` block rendered for an entity result, with up to
three related-entity lines when a non-empty relationship list is present. -/
def entityBlock (r : CBResult) : Str :=
  "[Entity: ".toList ++ r.name ++ "]\n".toList ++ r.content ++ "\n".toList ++
    (match r.graph_context with
     | none => []
     | some gc =>
       if gc.relationships.isEmpty then []
       else
         "Related to:\n".toList ++
           ((gc.relationships.take 3).map (fun rel =>
             "- ".toList ++ rel.neighbor ++ " (".toList ++
               rel.relationship ++ ")\n".toList)).flatten)

/-- The `context_parts` list: one block per chunk or entity result (other
result types contribute nothing), in input order with enumeration index. -/
def contextParts (results : List CBResult) : List Str :=
  results.enum.filterMap (fun p =>
    if p.2.rtype = "chunk".toList then some (chunkBlock p.1 p.2)
    else if p.2.rtype = "entity".toList then some (entityBlock p.2)
    else none)

/-- The joined context string before truncation:
`"\n\n".join(context_parts)`. -/
def rawLocalContext (results : List CBResult) : Str :=
  List.intercalate ("\n\n".toList) (contextParts results)

/-- The marker appended when the context is cut. -/
def truncMarker : Str := "\n\n[Context truncated...]".toList

/-- Python `ContextBuilder.build_local_context`: join the per-result blocks and
hard-truncate to `max_tokens * 4` characters, appending the truncation
marker when the cut happens. -/
def build_local_context (max_tokens : ℕ) (results : List CBResult) : Str :=
  let context := rawLocalContext results
  let max_chars := max_tokens * 4
  if max_chars < context.length then context.take max_chars ++ truncMarker
  else context

end ContextBuilder

/-- Python `np.linalg.norm v` — the Euclidean norm of a vector. -/
noncomputable def l2norm (v : List ℝ) : ℝ := Real.sqrt ((v.map (fun x => x ^ 2)).sum)

/-- Python `v / np.linalg.norm(v)` — componentwise division by the norm. -/
noncomputable def normalizeVec (v : List ℝ) : List ℝ := v.map (fun x => x / l2norm v)

/-- Python `np.dot` of two equal-length vectors. -/
noncomputable def dotList (a b : List ℝ) : ℝ := ((a.zip b).map (fun p => p.1 * p.2)).sum

/-- Python `_cosine_similarity` for one embedding row: the dot product of the
normalized row with the normalized query. -/
noncomputable def cosineSim (query emb : List ℝ) : ℝ :=
  dotList (normalizeVec emb) (normalizeVec query)

/-- The index comparison used to model `np.argsort` over a score vector. -/
def idxLe (scores : List ℝ) : ℕ → ℕ → Prop :=
  fun i j => scores.getD i 0 ≤ scores.getD j 0

noncomputable instance (scores : List ℝ) : DecidableRel (idxLe scores) :=
  fun _ _ => inferInstanceAs (Decidable (_ ≤ _))

instance (scores : List ℝ) : IsTotal ℕ (idxLe scores) := ⟨fun _ _ => le_total _ _⟩

instance (scores : List ℝ) : IsTrans ℕ (idxLe scores) := ⟨fun _ _ _ => le_trans⟩

/-- Python `np.argsort(scores)`: the indices `0, …, n−1` sorted so that the scores
they select are ascending (modelled with a stable sort). -/
noncomputable def argsortAsc (scores : List ℝ) : List ℕ :=
  List.insertionSort (idxLe scores) (List.range scores.length)

namespace GlobalSearch

/-- Replace every (left-to-right, non-overlapping) occurrence of `pat` by
`rep` — Python `s.replace(pat, rep)` for a non-empty pattern. -/
def replaceSub (pat rep : Str) : Str → Str
  | [] => []
  | c :: t =>
    if pat ≠ [] ∧ pat.isPrefixOf (c :: t) then
      rep ++ replaceSub pat rep (t.drop (pat.length - 1))
    else c :: replaceSub pat rep t
termination_by s => s.length
decreasing_by
  · simp only [List.length_drop, List.length_cons]; omega
  · simp only [List.length_cons]; omega

/-- Python `s.split(sep)` for a non-empty separator: greedy left-to-right
splitting, keeping empty segments. -/
def splitOnSub (sep : Str) : Str → List Str
  | [] => [[]]
  | c :: t =>
    if sep ≠ [] ∧ sep.isPrefixOf (c :: t) then
      [] :: splitOnSub sep (t.drop (sep.length - 1))
    else
      match splitOnSub sep t with
      | [] => [[c]]
      | s :: rest => (c :: s) :: rest
termination_by s => s.length
decreasing_by
  · simp only [List.length_drop, List.length_cons]; omega
  · simp only [List.length_cons]; omega

/-- One community report record (`communities_metadata.json` row): fields
read with `.get`, so `community_id` may be absent. -/
structure GSReport where
  community_id : Option ℕ
  title : Str
  summary : Str
  num_entities : ℕ
  rank : ℚ

instance : Inhabited GSReport := ⟨⟨none, [], [], 0, 0⟩⟩

/-- A community search result as assembled by `GlobalSearch.search`. -/
structure GSResult where
  rtype : Str
  score : ℝ
  community_id : ℕ
  title : Str
  summary : Str
  num_entities : ℕ
  rank : ℚ
  entities : List Str
  mname : Option Str

/-- The loaded state of `GlobalSearch`: community embeddings (absent when
the embeddings file did not exist) and community reports. -/
structure GSState where
  community_embeddings : Option (List (List ℝ))
  community_reports : Option (List GSReport)

/-- The entity names re-derived from a report title: replace `" and "` by
`", "`, split on `", "`, strip, and drop tokens ending in `"others"`. -/
def titleEntities (title : Str) : List Str :=
  if title ≠ [] then
    ((splitOnSub (", ".toList) (replaceSub (" and ".toList) (", ".toList) title)).map
        stripStr).filter (fun e => !(List.isSuffixOf ("others".toList) e))
  else []

/-- Python `GlobalSearch.search`: an empty list when community embeddings were
never loaded, otherwise cosine ranking over community report embeddings,
each surviving report rendered with its title-derived entity names. -/
noncomputable def search (st : GSState) (q : List ℝ) (top_k : ℕ) : List GSResult :=
  match st.community_embeddings with
  | none => []
  | some embs =>
    let scores := embs.map (cosineSim q)
    let top_indices := (pySliceLast (argsortAsc scores) top_k).reverse
    top_indices.map (fun idx =>
      let report := (st.community_reports.getD []).getD idx default
      let entities := titleEntities report.title
      { rtype := "community".toList
        score := scores.getD idx 0
        community_id := report.community_id.getD idx
        title := report.title
        summary := report.summary
        num_entities := report.num_entities
        rank := report.rank
        entities := entities
        mname := entities.head? })

end GlobalSearch

namespace LocalSearch

/-- One row of `chunks_metadata.json`. -/
structure ChunkMeta where
  text : Str

/-- One row of `entities_metadata.json`. -/
structure EntityMeta where
  name : Str
  description : Str

/-- The loaded knowledge graph as far as `_get_entity_context` reads it:
node list, neighbor lists, the `relationship` edge attribute, and degrees. -/
structure LSGraph where
  nodes : List Str
  adj : Str → List Str
  edgeRel : Str → Str → Str
  degree : Str → ℕ

/-- The `graph_context` dictionary attached to an entity result. -/
structure GraphContext where
  neighbors : List Str
  relationships : List (Str × Str)
  degree : ℕ

/-- Python `LocalSearch._get_entity_context`: up to 10 neighbors and up to 5
`(neighbor, relationship)` pairs plus the node degree; an empty context
when no graph is loaded or the entity is not a node. -/
def get_entity_context (g : Option LSGraph) (name : Str) : GraphContext :=
  match g with
  | none => ⟨[], [], 0⟩
  | some g =>
    if name ∈ g.nodes then
      let neighbors := g.adj name
      ⟨neighbors.take 10,
       (neighbors.take 5).map (fun nb => (nb, g.edgeRel name nb)),
       g.degree name⟩
    else ⟨[], [], 0⟩

/-- The metadata carried by a local search result: the chunk's metadata row
for chunk results, the entity's metadata row for entity results. -/
inductive LSMeta where
  | chunk (m : ChunkMeta)
  | entity (m : EntityMeta)

/-- A local search result dictionary. -/
structure LSResult where
  rtype : Str
  score : ℝ
  content : Str
  metadata : LSMeta
  graph_context : Option GraphContext

/-- The loaded state of `LocalSearch`: chunk embeddings and metadata are
mandatory; entity data and the graph are optional. -/
structure LSState where
  chunk_embeddings : List (List ℝ)
  chunk_metadata : List ChunkMeta
  entity_data : Option (List (List ℝ) × List EntityMeta)
  graph : Option LSGraph

/-- Step 1 of `LocalSearch.search`: cosine scores over all chunks, then the
slice `np.argsort(scores)[-top_k:][::-1]` rendered as chunk results. -/
noncomputable def chunkResults (st : LSState) (q : List ℝ) (top_k : ℕ) : List LSResult :=
  let chunk_scores := st.chunk_embeddings.map (cosineSim q)
  let top_chunk_indices := (pySliceLast (argsortAsc chunk_scores) top_k).reverse
  top_chunk_indices.map (fun idx =>
    { rtype := "chunk".toList
      score := chunk_scores.getD idx 0
      content := (st.chunk_metadata.getD idx ⟨[]⟩).text
      metadata := .chunk (st.chunk_metadata.getD idx ⟨[]⟩)
      graph_context := none })

/-- Step 2 of `LocalSearch.search`: cosine scores over all entities, then
the fixed slice `np.argsort(scores)[-5:][::-1]` rendered as entity results
with one-hop graph context. -/
noncomputable def entityResults (st : LSState) (q : List ℝ)
    (ed : List (List ℝ) × List EntityMeta) : List LSResult :=
  let entity_scores := ed.1.map (cosineSim q)
  let top_entity_indices := (pySliceLast (argsortAsc entity_scores) 5).reverse
  top_entity_indices.map (fun idx =>
    let entity := ed.2.getD idx ⟨[], []⟩
    { rtype := "entity".toList
      score := entity_scores.getD idx 0
      content := entity.name ++ ": ".toList ++ entity.description
      metadata := .entity entity
      graph_context := some (get_entity_context st.graph entity.name) })

/-- The comparison of `results.sort(key=lambda x: x['score'], reverse=True)`. -/
def resGE : LSResult → LSResult → Prop := fun a b => b.score ≤ a.score

noncomputable instance : DecidableRel resGE :=
  fun _ _ => inferInstanceAs (Decidable (_ ≤ _))

instance : IsTotal LSResult resGE := ⟨fun _ _ => le_total _ _⟩

instance : IsTrans LSResult resGE := ⟨fun _ _ _ h h' => le_trans h' h⟩

/-- The stable descending sort of the merged result list. -/
noncomputable def sortByScoreDesc (l : List LSResult) : List LSResult :=
  List.insertionSort resGE l

/-- Python `LocalSearch.search`: top-`top_k` chunk results, then (when entity data
is loaded) the top-5 entity results, merged, sorted descending by score and
truncated to `top_k`. -/
noncomputable def search (st : LSState) (q : List ℝ) (top_k : ℕ) : List LSResult :=
  let results := chunkResults st q top_k ++
    (match st.entity_data with
     | some ed => entityResults st q ed
     | none => [])
  (sortByScoreDesc results).take top_k

end LocalSearch

namespace SearchEvaluator

/-- A search result dictionary as the evaluator reads it: `type`, `score`,
`content`, `summary` (all read with `.get` and the defaults shown in the
source), the optional `metadata['name']`, and the
`graph_context.get('neighbors', [])` list. -/
structure MResult where
  rtype : Str
  score : ℚ
  content : Str
  summary : Str
  mname : Option Str
  neighbors : List Str
deriving DecidableEq

/-- Python `result.get('content', '') or result.get('summary', '')`. -/
def contentOr (r : MResult) : Str := if r.content = [] then r.summary else r.content

/-- The query-token overlap of one result:
`|query_tokens ∩ result_tokens| / |query_tokens|`, 0 for an empty query
token set. -/
def overlapScore (query_tokens : Finset Str) (r : MResult) : ℚ :=
  if query_tokens ≠ ∅ then
    ((query_tokens ∩ tokensLower (contentOr r)).card : ℚ) / query_tokens.card
  else 0

/-- The per-result combined relevance scores
`0.7 * similarity + 0.3 * overlap`. -/
def relevance_scores (query : Str) (results : List MResult) : List ℚ :=
  results.map (fun r => 7/10 * r.score + 3/10 * overlapScore (tokensLower query) r)

/-- Python `sum(score / np.log2(i + 2) for i, score in enumerate(relevance_scores))`. -/
noncomputable def weightedSum (rs : List ℚ) : ℝ :=
  ∑ i ∈ Finset.range rs.length, (rs.getD i 0 : ℝ) / Real.logb 2 (i + 2)

/-- Python `sum(1.0 / np.log2(i + 2) for i in range(n))` — the ideal discounted sum. -/
noncomputable def idealSum (n : ℕ) : ℝ :=
  ∑ i ∈ Finset.range n, 1 / Real.logb 2 (i + 2)

/-- Python `SearchEvaluator._calculate_relevance`: DCG-style rank-discounted
average of the combined per-result scores, normalized by the ideal
(all-1.0) discounted sum; 0 for an empty result list. -/
noncomputable def calculate_relevance (query : Str) (results : List MResult) : ℝ :=
  if results = [] then 0
  else if 0 < idealSum (relevance_scores query results).length then
    weightedSum (relevance_scores query results)
      / idealSum (relevance_scores query results).length
  else 0

/-- The index pairs `(i, j)`, `i < j < n`, in the order of the coverage
double loop. -/
def pairIdx (n : ℕ) : List (ℕ × ℕ) :=
  (List.range n).flatMap (fun i => (List.range' (i + 1) (n - (i + 1))).map (fun j => (i, j)))

/-- The entity names the coverage metric collects: every present
`metadata['name']` plus all graph-context neighbors. -/
def coverageEntities (results : List MResult) : Finset Str :=
  (results.filterMap MResult.mname).toFinset ∪ (results.flatMap MResult.neighbors).toFinset

/-- The distinct result types seen by the coverage metric. -/
def coverageTypes (results : List MResult) : Finset Str :=
  (results.map MResult.rtype).toFinset

/-- Python `set(self._tokenize(all_content[i].lower()[:500]))` — the truncated
token set of the `i`-th content string. -/
def pairTokens (all_content : List Str) (i : ℕ) : Finset Str :=
  (tokenize ((toLowerStr (all_content.getD i [])).take 500)).toFinset

/-- The pairwise overlap list of the coverage metric: for each pair of the
first five contents with both truncated token sets non-empty,
`|A ∩ B| / max(|A|, |B|)`. -/
def contentOverlaps (all_content : List Str) : List ℚ :=
  (pairIdx (min 5 all_content.length)).filterMap (fun p =>
    let tokens_i := pairTokens all_content p.1
    let tokens_j := pairTokens all_content p.2
    if tokens_i ≠ ∅ ∧ tokens_j ≠ ∅ then
      some (((tokens_i ∩ tokens_j).card : ℚ) / (max tokens_i.card tokens_j.card))
    else none)

/-- The content-diversity component of coverage: `1 − mean(overlaps)` when
at least one pair was compared, `0.5` when no pair survived, and `0` with
fewer than two contents. -/
def contentDiversity (all_content : List Str) : ℚ :=
  if 1 < all_content.length then
    if contentOverlaps all_content ≠ [] then
      1 - (contentOverlaps all_content).sum / ((contentOverlaps all_content).length : ℚ)
    else 1/2
  else 0

/-- Python `min(len(entities) / (len(results) * 2), 1.0)`. -/
def entityDiversity (results : List MResult) : ℚ :=
  min (((coverageEntities results).card : ℚ) / (results.length * 2)) 1

/-- Python `min(len(types) / 3, 1.0)`. -/
def typeDiversity (results : List MResult) : ℚ :=
  min (((coverageTypes results).card : ℚ) / 3) 1

/-- Python `SearchEvaluator._calculate_coverage`: the weighted diversity sum
`0.4 * entity + 0.3 * content + 0.3 * type`, and 0 on no results. -/
def calculate_coverage (results : List MResult) : ℚ :=
  if results = [] then 0
  else
    4/10 * entityDiversity results
      + 3/10 * contentDiversity (results.map contentOr)
      + 3/10 * typeDiversity results

/-- The token Jaccard overlap `|A ∩ B| / |A ∪ B|` named by the
specification (read as 0 when both sets are empty). -/
def specJaccard (a b : Finset Str) : ℚ := ((a ∩ b).card : ℚ) / (a ∪ b).card

/-- The content diversity exactly as the specification sentence words it:
one minus the mean pairwise token Jaccard overlap over the first five
results, 500 characters each; 0 with fewer than two results. -/
def specContentDiversity (all_content : List Str) : ℚ :=
  if 1 < all_content.length then
    let pairs := pairIdx (min 5 all_content.length)
    1 - (pairs.map (fun p =>
      specJaccard (pairTokens all_content p.1) (pairTokens all_content p.2))).sum
        / pairs.length
  else 0

/-- The coverage formula as the claim states it, with Jaccard content
diversity. -/
def specCoverage (results : List MResult) : ℚ :=
  4/10 * entityDiversity results
    + 3/10 * specContentDiversity (results.map contentOr)
    + 3/10 * typeDiversity results

/-- The amended content diversity: one minus the mean, over unordered pairs
of the first five results whose truncated token sets are both non-empty, of
`|A ∩ B| / max(|A|, |B|)`; `1/2` when no such pair exists; `0` with fewer
than two results. -/
def amendedRatios (all_content : List Str) : List ℚ :=
  (pairIdx (min 5 all_content.length)).filterMap (fun p =>
    let a := pairTokens all_content p.1
    let b := pairTokens all_content p.2
    if a ≠ ∅ ∧ b ≠ ∅ then some (((a ∩ b).card : ℚ) / (max a.card b.card)) else none)

/-- The amended-claim content diversity body. -/
def amendedContentDiversity (all_content : List Str) : ℚ :=
  if 1 < all_content.length then
    if amendedRatios all_content ≠ [] then
      1 - (amendedRatios all_content).sum / ((amendedRatios all_content).length : ℚ)
    else 1/2
  else 0

/-- The coverage formula with the amended content diversity. -/
def amendedCoverage (results : List MResult) : ℚ :=
  4/10 * entityDiversity results
    + 3/10 * amendedContentDiversity (results.map contentOr)
    + 3/10 * typeDiversity results

/-- The mean of a rational list (`np.mean`). -/
def listMeanQ (l : List ℚ) : ℚ := l.sum / l.length

/-- The mean of a real list (`np.mean`). -/
noncomputable def listMeanR (l : List ℝ) : ℝ := l.sum / l.length

/-- Python `np.std(lengths) if len(lengths) > 1 else 5` — the population standard
deviation of the sentence word counts. -/
noncomputable def lengthsStd (lengths : List ℚ) : ℝ :=
  if 1 < lengths.length then
    Real.sqrt (((lengths.map (fun x => ((x : ℝ) - (listMeanQ lengths : ℚ)) ^ 2)).sum)
      / lengths.length)
  else 5

/-- Sub-score 1 (completeness): query-token coverage of the answer tokens,
present only when the query has tokens. -/
def completenessScores (query_tokens answer_tokens : Finset Str) : List ℚ :=
  if query_tokens ≠ ∅ then
    [((query_tokens ∩ answer_tokens).card : ℚ) / query_tokens.card]
  else []

/-- Sub-score 2 (informativeness): the piecewise-linear word-count score. -/
def lengthScore (word_count : ℕ) : ℚ :=
  if word_count < 50 then (word_count : ℚ) / 50
  else if 500 < word_count then 1 - min (((word_count : ℚ) - 500) / 500) (1/2)
  else 1

/-- Sub-score 3 (coherence): `0.6 * length_quality + 0.4 * variance_quality`
over the word counts of the first ten sentences, present only when any
sentence exists. -/
noncomputable def coherenceScores (sentences : List Str) : List ℝ :=
  if sentences ≠ [] then
    [6/10 * (1 - min
        (|(listMeanQ ((sentences.take 10).map (fun s => ((words s).length : ℚ))) : ℝ) - 15|
          / 15) 1)
      + 4/10 * min
        (lengthsStd ((sentences.take 10).map (fun s => ((words s).length : ℚ))) / 5) 1]
  else []

/-- Python `2 * p * r / (p + r) if (p + r) > 0 else 0`. -/
def tokenF1 (p r : ℚ) : ℚ := if 0 < p + r then 2 * p * r / (p + r) else 0

/-- Sub-score 4: token-level F1 of the answer against the (truncated)
ground truth, present only when a non-empty ground truth is supplied and
both token sets are non-empty. -/
def gtScores (answer_tokens : Finset Str) : Option Str → List ℚ
  | none => []
  | some gt =>
    if gt = [] then []
    else if tokensLower (gt.take 2000) ≠ ∅ ∧ answer_tokens ≠ ∅ then
      [tokenF1
        (((tokensLower (gt.take 2000) ∩ answer_tokens).card : ℚ) / answer_tokens.card)
        (((tokensLower (gt.take 2000) ∩ answer_tokens).card : ℚ)
          / (tokensLower (gt.take 2000)).card)]
    else []

/-- The sequentially appended sub-score list of
`_calculate_answer_quality`. -/
noncomputable def qualityScores (answer query : Str) (ground_truth : Option Str) : List ℝ :=
  (completenessScores (tokensLower query) (tokensLower (answer.take 2000))).map
      (fun q : ℚ => (q : ℝ))
    ++ [((lengthScore (words (answer.take 2000)).length : ℚ) : ℝ)]
    ++ coherenceScores (sentencesOf (answer.take 2000))
    ++ (gtScores (tokensLower (answer.take 2000)) ground_truth).map (fun q : ℚ => (q : ℝ))

/-- Python `SearchEvaluator._calculate_answer_quality`: the mean of the applicable
sub-scores (query coverage, length, coherence, ground-truth F1); 0 for an
empty answer. -/
noncomputable def calculate_answer_quality (answer query : Str)
    (ground_truth : Option Str) : ℝ :=
  if answer = [] then 0
  else if qualityScores answer query ground_truth ≠ [] then
    listMeanR (qualityScores answer query ground_truth)
  else 0

/-- The lower-cased capitalized words of the first ten answer sentences
(the evaluator's crude named-entity detector). -/
def answerEntities (sentences : List Str) : Finset Str :=
  ((sentences.take 10).flatMap (fun sentence =>
    (words sentence).filterMap (fun word =>
      if word ≠ [] ∧ (word.headD ' ').isUpper ∧ 1 < word.length
      then some (toLowerStr word) else none))).toFinset

/-- The union of the token sets of the first five results' contents,
truncated to 1000 characters each. -/
def contextTokens (results : List MResult) : Finset Str :=
  ((results.take 5).map (fun r => tokensLower ((contentOr r).take 1000))).foldl (· ∪ ·) ∅

/-- Python `' '.join(truncated contents).lower()` — the joined context text the
entity-grounding check searches. -/
def faithContextText (results : List MResult) : Str :=
  toLowerStr (List.intercalate [' '] ((results.take 5).map (fun r => (contentOr r).take 1000)))

/-- The grounded-token fraction of the answer sample. -/
def faithBase (answer_sample : Str) (results : List MResult) : ℚ :=
  ((tokensLower answer_sample ∩ contextTokens results).card : ℚ)
    / (tokensLower answer_sample).card

/-- The fraction of detected answer entities literally occurring in the
joined context text. -/
def entityGrounding (answer_sample : Str) (results : List MResult) : ℚ :=
  (((answerEntities (sentencesOf answer_sample)).filter
      (fun e => containsSub e (faithContextText results) = true)).card : ℚ)
    / (answerEntities (sentencesOf answer_sample)).card

/-- Python `SearchEvaluator._calculate_faithfulness`: the grounded-token fraction
of the answer, blended 70/30 with capitalized-entity grounding when any
capitalized entity was detected; 0 for a missing answer or no results. -/
def calculate_faithfulness (answer : Str) (results : List MResult) : ℚ :=
  if answer = [] ∨ results = [] then 0
  else if tokensLower (answer.take 2000) = ∅ then 0
  else if answerEntities (sentencesOf (answer.take 2000)) = ∅ then
    faithBase (answer.take 2000) results
  else
    7/10 * faithBase (answer.take 2000) results
      + 3/10 * entityGrounding (answer.take 2000) results

/-- First chunk result of the coverage counterexample input: tokens
`{aaa, bbb}`. -/
def jacA : MResult := ⟨"chunk".toList, 0, "aaa bbb".toList, [], none, []⟩

/-- Second chunk result of the coverage counterexample input: tokens
`{bbb, ccc}`. -/
def jacB : MResult := ⟨"chunk".toList, 0, "bbb ccc".toList, [], none, []⟩

/-- The four metrics returned by `SearchEvaluator.evaluate`. -/
structure EvalMetrics where
  relevance_score : ℝ
  coverage_score : ℝ
  answer_quality : ℝ
  faithfulness : ℝ

/-- Python `SearchEvaluator.evaluate`: assemble the four metrics. -/
noncomputable def evaluate (query answer : Str) (search_results : List MResult)
    (ground_truth : Option Str) : EvalMetrics :=
  { relevance_score := calculate_relevance query search_results
    coverage_score := (calculate_coverage search_results : ℝ)
    answer_quality := calculate_answer_quality answer query ground_truth
    faithfulness := (calculate_faithfulness answer search_results : ℝ) }

/-- The overall score reported by `get_summary`: `np.mean` of the four
metric values. -/
noncomputable def overall_score (m : EvalMetrics) : ℝ :=
  (m.relevance_score + m.coverage_score + m.answer_quality + m.faithfulness) / 4

end SearchEvaluator

namespace RelationshipExtractor

/-- One relationship record as produced by `_parse_relationships`. -/
structure Rel where
  source : Str
  target : Str
  relationship : Str
  description : Str
  weight : ℚ
  source_chunk : Str
deriving DecidableEq

/-- The deduplication key: the stripped, lower-cased
`(source, target, relationship)` triple. -/
def relKey (r : Rel) : Str × Str × Str :=
  (toLowerStr (stripStr r.source), toLowerStr (stripStr r.target),
   toLowerStr (stripStr r.relationship))

/-- A relationship survives deduplication only when its stripped source,
target and label are all non-empty. -/
def relValid (r : Rel) : Bool :=
  !(stripStr r.source).isEmpty && !(stripStr r.target).isEmpty
    && !(stripStr r.relationship).isEmpty

/-- Increment (by 1) the weight of the first record with the given key —
the in-place `seen[key]['weight'] += 1` update. -/
def bumpFirst (key : Str × Str × Str) : List Rel → List Rel
  | [] => []
  | r :: rest =>
    if relKey r = key then { r with weight := r.weight + 1 } :: rest
    else r :: bumpFirst key rest

/-- The fold of `_deduplicate_relationships` over the input order: `acc`
holds the records of `seen` in insertion order. -/
def dedupAux (acc : List Rel) : List Rel → List Rel
  | [] => acc
  | r :: rest =>
    if relValid r then
      if acc.any (fun s => decide (relKey s = relKey r)) then
        dedupAux (bumpFirst (relKey r) acc) rest
      else dedupAux (acc ++ [r]) rest
    else dedupAux acc rest

/-- Python `RelationshipExtractor._deduplicate_relationships`: first occurrence of
each case-insensitive `(source, target, label)` key is kept and each later
occurrence only bumps its weight by 1; invalid records are dropped. -/
def deduplicate_relationships (rels : List Rel) : List Rel := dedupAux [] rels

/-- The records of a list whose deduplication key equals `key`. -/
def filterK (key : Str × Str × Str) (l : List Rel) : List Rel :=
  l.filter (fun r => decide (relKey r = key))

/-- The single record one key contributes after deduplication: the first
occurrence with its weight bumped once per later occurrence. -/
def addOcc (cur occ : List Rel) : List Rel :=
  match cur with
  | a :: _ => [{ a with weight := a.weight + occ.length }]
  | [] =>
    match occ with
    | [] => []
    | o :: os => [{ o with weight := o.weight + os.length }]

end RelationshipExtractor

namespace GraphBuilder

/-- An entity record as the graph builder reads it. -/
structure Entity where
  name : Str
  etype : Str
  description : Str

/-- The built knowledge graph: a set of named nodes and a set of undirected
edges (`networkx.Graph` collapses parallel edges). -/
structure BuiltGraph where
  nodes : Finset Str
  edges : Finset (Sym2 Str)

/-- The node set of `GraphBuilder.build`: one node per entity with a
non-empty stripped name. -/
def buildNodes (entities : List Entity) : Finset Str :=
  ((entities.map (fun e => stripStr e.name)).filter (fun n => !n.isEmpty)).toFinset

/-- Python `GraphBuilder.build`: the nodes above plus one undirected edge per
relationship whose stripped endpoints are both non-empty and both present
as nodes. -/
def build (entities : List Entity)
    (relationships : List RelationshipExtractor.Rel) : BuiltGraph :=
  ⟨buildNodes entities,
   (relationships.filterMap (fun rel =>
     if stripStr rel.source ≠ [] ∧ stripStr rel.target ≠ []
         ∧ stripStr rel.source ∈ buildNodes entities
         ∧ stripStr rel.target ∈ buildNodes entities then
       some s(stripStr rel.source, stripStr rel.target)
     else none)).toFinset⟩

end GraphBuilder

namespace CommunityDetector

/-- Modelled from the spec: the external `leidenalg.find_partition` call is
not part of this repository; §4.1 specifies that it "partitions the Graph
Store into non-overlapping communities", i.e. its community index lists
cover each vertex index `0, …, n−1` exactly once. -/
def leidenIsPartition (n : ℕ) (parts : List (List ℕ)) : Prop :=
  parts.flatten.Perm (List.range n)

/-- The node-name mapping of `CommunityDetector.detect`: community `i` of
the Leiden partition becomes the list of node names at its vertex indices
(`members = [nodes[idx] for idx in community]`). -/
def detect (nodes : List Str) (parts : List (List ℕ)) : List (List Str) :=
  parts.map (fun comm => comm.map (fun idx => nodes.getD idx []))

end CommunityDetector

end GraphRAG

namespace GraphRAG

/-- Claim C5: the classifier follows the spec's decision procedure, and the two
documented example queries route to `local` and `global` respectively. -/
theorem C5_classify_spec :
    (∀ q : Str, QueryProcessor.classify q = QueryProcessor.claimClassify q) ∧
    QueryProcessor.classify ("What is the recommended daily iron intake?".toList)
      = "local".toList ∧
    QueryProcessor.classify
      ("Give me an overview of the main themes across all documents".toList)
      = "global".toList := by
  refine ⟨fun q => ?_, by decide, by decide⟩
  unfold QueryProcessor.classify QueryProcessor.claimClassify
  rcases lt_trichotomy
      ((QueryProcessor.local_keywords.filter
        (fun kw => containsSub kw (toLowerStr q))).length)
      ((QueryProcessor.global_keywords.filter
        (fun kw => containsSub kw (toLowerStr q))).length) with h | h | h <;>
    simp [h, h.not_lt, lt_irrefl]

/-- Claim C6: the local context never exceeds `max_tokens * 4` characters plus
the truncation marker, and the marker is appended (after a hard prefix cut)
exactly when the untruncated context exceeds `max_tokens * 4` characters. -/
theorem C6_local_context_truncation (max_tokens : ℕ)
    (results : List ContextBuilder.CBResult) :
    (ContextBuilder.build_local_context max_tokens results).length
        ≤ max_tokens * 4 + ContextBuilder.truncMarker.length ∧
    (max_tokens * 4 < (ContextBuilder.rawLocalContext results).length →
      ContextBuilder.build_local_context max_tokens results
        = (ContextBuilder.rawLocalContext results).take (max_tokens * 4)
            ++ ContextBuilder.truncMarker) ∧
    ((ContextBuilder.rawLocalContext results).length ≤ max_tokens * 4 →
      ContextBuilder.build_local_context max_tokens results
        = ContextBuilder.rawLocalContext results) := by
  unfold ContextBuilder.build_local_context
  by_cases h : max_tokens * 4 < (ContextBuilder.rawLocalContext results).length
  · refine ⟨?_, fun _ => by simp [h], fun hle => absurd h hle.not_lt⟩
    simp only [h, if_true, List.length_append, List.length_take]
    omega
  · refine ⟨?_, fun hlt => absurd hlt h, fun _ => by simp [h]⟩
    simp only [h, if_false]
    omega

/-- Claim C6 witness: the bound instantiated at a concrete input. -/
theorem C6_local_context_truncation_witness :
    (ContextBuilder.build_local_context 1 []).length
      ≤ 1 * 4 + ContextBuilder.truncMarker.length :=
  (C6_local_context_truncation 1 []).1

/-- Claim C7: global search returns an empty list, rather than failing,
whenever community embedding data was never loaded. -/
theorem C7_global_search_degrades_empty (st : GlobalSearch.GSState)
    (q : List ℝ) (top_k : ℕ) (h : st.community_embeddings = none) :
    GlobalSearch.search st q top_k = [] := by
  unfold GlobalSearch.search
  rw [h]

/-- Claim C7 witness: a concrete unloaded state yields no results. -/
theorem C7_global_search_degrades_empty_witness :
    GlobalSearch.search ⟨none, none⟩ [] 5 = [] :=
  C7_global_search_degrades_empty ⟨none, none⟩ [] 5 rfl

/-- In an ascending stable argsort, every index kept by the suffix slice
`[-k:]` scores at least as high as every index the slice discards. -/
lemma argsort_suffix_ge (scores : List ℝ) (k : ℕ) (hk : k ≠ 0) :
    ∀ i ∈ (pySliceLast (argsortAsc scores) k).reverse,
      ∀ j < scores.length,
        j ∉ (pySliceLast (argsortAsc scores) k).reverse →
        scores.getD j 0 ≤ scores.getD i 0 := by
  intro i hi j hj hj2
  rw [List.mem_reverse] at hi
  rw [List.mem_reverse] at hj2
  have hslice : pySliceLast (argsortAsc scores) k
      = (argsortAsc scores).drop ((argsortAsc scores).length - k) := by
    simp [pySliceLast, hk]
  rw [hslice] at hi hj2
  have hsorted : List.Sorted (idxLe scores) (argsortAsc scores) :=
    List.sorted_insertionSort _ _
  have hperm : (argsortAsc scores).Perm (List.range scores.length) :=
    List.perm_insertionSort _ _
  have hjL : j ∈ argsortAsc scores := hperm.mem_iff.mpr (List.mem_range.mpr hj)
  have hsplit := List.take_append_drop ((argsortAsc scores).length - k) (argsortAsc scores)
  have hjtake : j ∈ (argsortAsc scores).take ((argsortAsc scores).length - k) := by
    rcases List.mem_append.mp (by rw [hsplit]; exact hjL) with h | h
    · exact h
    · exact absurd h hj2
  have hPW : List.Pairwise (idxLe scores)
      ((argsortAsc scores).take ((argsortAsc scores).length - k)
        ++ (argsortAsc scores).drop ((argsortAsc scores).length - k)) := by
    rw [hsplit]; exact hsorted
  exact (List.pairwise_append.mp hPW).2.2 j hjtake i hi

/-- In the descending sorted-and-truncated result list, any result strictly
outscoring an included result is itself included. -/
lemma sorted_take_displace (l : List LocalSearch.LSResult) (k : ℕ)
    (e c : LocalSearch.LSResult) (he : e ∈ l) (hlt : c.score < e.score)
    (hc : c ∈ (LocalSearch.sortByScoreDesc l).take k) :
    e ∈ (LocalSearch.sortByScoreDesc l).take k := by
  have hsorted : List.Sorted LocalSearch.resGE (LocalSearch.sortByScoreDesc l) :=
    List.sorted_insertionSort _ _
  have heL : e ∈ LocalSearch.sortByScoreDesc l :=
    (List.perm_insertionSort _ _).mem_iff.mpr he
  by_contra hnot
  have hsplit := List.take_append_drop k (LocalSearch.sortByScoreDesc l)
  have heDrop : e ∈ (LocalSearch.sortByScoreDesc l).drop k := by
    rcases List.mem_append.mp (by rw [hsplit]; exact heL) with h | h
    · exact absurd h hnot
    · exact h
  have hPW : List.Pairwise LocalSearch.resGE
      ((LocalSearch.sortByScoreDesc l).take k ++ (LocalSearch.sortByScoreDesc l).drop k) := by
    rw [hsplit]; exact hsorted
  have hge : LocalSearch.resGE c e := (List.pairwise_append.mp hPW).2.2 c hc e heDrop
  exact absurd hlt (not_lt.mpr hge)

/-- Claim C4: with an entity index loaded, local search merges the
top-`top_k` chunks with exactly the `min 5 n` top-scoring entities
(regardless of `top_k`), sorts the merged list descending by score and
truncates to `top_k`; consequently an entity result strictly outscoring a
chunk result that made the returned list is itself in the returned list
(so a marginal chunk is displaced). -/
theorem C4_local_search_entity_fusion (st : LocalSearch.LSState) (q : List ℝ)
    (top_k : ℕ) (ed : List (List ℝ) × List LocalSearch.EntityMeta)
    (hed : st.entity_data = some ed) :
    LocalSearch.search st q top_k
      = (LocalSearch.sortByScoreDesc
          (LocalSearch.chunkResults st q top_k
            ++ LocalSearch.entityResults st q ed)).take top_k
    ∧ (LocalSearch.entityResults st q ed).length = min 5 ed.1.length
    ∧ (∀ i ∈ (pySliceLast (argsortAsc (ed.1.map (cosineSim q))) 5).reverse,
        ∀ j < (ed.1.map (cosineSim q)).length,
          j ∉ (pySliceLast (argsortAsc (ed.1.map (cosineSim q))) 5).reverse →
          (ed.1.map (cosineSim q)).getD j 0 ≤ (ed.1.map (cosineSim q)).getD i 0)
    ∧ (∀ e ∈ LocalSearch.entityResults st q ed,
        ∀ c ∈ LocalSearch.chunkResults st q top_k,
          c.score < e.score →
          c ∈ LocalSearch.search st q top_k →
          e ∈ LocalSearch.search st q top_k) := by
  have hsearch : LocalSearch.search st q top_k
      = (LocalSearch.sortByScoreDesc
          (LocalSearch.chunkResults st q top_k
            ++ LocalSearch.entityResults st q ed)).take top_k := by
    unfold LocalSearch.search
    rw [hed]
  refine ⟨hsearch, ?_, ?_, ?_⟩
  · unfold LocalSearch.entityResults
    have hlen : (argsortAsc (ed.1.map (cosineSim q))).length = ed.1.length := by
      unfold argsortAsc
      rw [(List.perm_insertionSort _ _).length_eq, List.length_range, List.length_map]
    simp only [List.length_map, List.length_reverse, pySliceLast,
      OfNat.ofNat_ne_zero, if_false, List.length_drop, hlen]
    omega
  · exact argsort_suffix_ge (ed.1.map (cosineSim q)) 5 (by omega)
  · intro e he c hc hlt hcmem
    rw [hsearch] at hcmem ⊢
    exact sorted_take_displace _ top_k e c
      (List.mem_append.mpr (Or.inr he)) hlt hcmem

/-- Claim C4 witness: the theorem instantiated at a concrete loaded state. -/
theorem C4_local_search_entity_fusion_witness :
    (LocalSearch.entityResults ⟨[], [], some ([], []), none⟩ [] ([], [])).length
      = min 5 ([] : List (List ℝ)).length :=
  (C4_local_search_entity_fusion ⟨[], [], some ([], []), none⟩ [] 0 ([], []) rfl).2.1

/-- Claim C10: local search never returns more than `top_k` results; with
`top_k = 0` the result is empty even though the chunk slice `[-0:]`
internally selects every chunk before the final truncation. -/
theorem C10_local_search_topk_bound :
    (∀ (st : LocalSearch.LSState) (q : List ℝ) (top_k : ℕ),
      (LocalSearch.search st q top_k).length ≤ top_k) ∧
    (∀ (st : LocalSearch.LSState) (q : List ℝ),
      LocalSearch.search st q 0 = [] ∧
      (LocalSearch.chunkResults st q 0).length = st.chunk_embeddings.length) := by
  refine ⟨fun st q top_k => ?_, fun st q => ⟨?_, ?_⟩⟩
  · unfold LocalSearch.search
    exact List.length_take_le _ _
  · unfold LocalSearch.search
    simp
  · unfold LocalSearch.chunkResults
    have hlen : (argsortAsc (st.chunk_embeddings.map (cosineSim q))).length
        = st.chunk_embeddings.length := by
      unfold argsortAsc
      rw [(List.perm_insertionSort _ _).length_eq, List.length_range, List.length_map]
    simp [pySliceLast, hlen]

open SearchEvaluator

/-- A ratio of cardinalities with numerator at most denominator lies in the
unit interval (a zero denominator yields 0). -/
lemma natRatio_mem (a b : ℕ) (h : a ≤ b) : 0 ≤ (a : ℚ) / b ∧ (a : ℚ) / b ≤ 1 := by
  refine ⟨by positivity, ?_⟩
  rcases Nat.eq_zero_or_pos b with hb | hb
  · subst hb
    obtain rfl : a = 0 := Nat.le_zero.mp h
    norm_num
  · rw [div_le_one (by exact_mod_cast hb)]
    exact_mod_cast h

/-- The mean of a list of nonnegative values is nonnegative. -/
lemma mean_nonneg {K : Type} [LinearOrderedField K] (l : List K)
    (h : ∀ x ∈ l, 0 ≤ x) : 0 ≤ l.sum / (l.length : K) :=
  div_nonneg (List.sum_nonneg h) (by positivity)

/-- The mean of a list of values at most 1 is at most 1. -/
lemma mean_le_one {K : Type} [LinearOrderedField K] (l : List K)
    (h : ∀ x ∈ l, x ≤ 1) : l.sum / (l.length : K) ≤ 1 := by
  rcases eq_or_ne l [] with rfl | hne
  · norm_num
  · have hl : 0 < (l.length : K) := by exact_mod_cast List.length_pos.mpr hne
    rw [div_le_one hl]
    have := List.sum_le_card_nsmul l 1 h
    simpa [nsmul_eq_mul] using this

/-- Python `np.mean` of rationals in the unit interval stays in the unit interval. -/
lemma listMeanQ_mem (l : List ℚ) (h : ∀ x ∈ l, 0 ≤ x ∧ x ≤ 1) :
    0 ≤ listMeanQ l ∧ listMeanQ l ≤ 1 := by
  unfold listMeanQ
  exact ⟨mean_nonneg l (fun x hx => (h x hx).1), mean_le_one l (fun x hx => (h x hx).2)⟩

/-- Python `np.mean` of reals in the unit interval stays in the unit interval. -/
lemma listMeanR_mem (l : List ℝ) (h : ∀ x ∈ l, 0 ≤ x ∧ x ≤ 1) :
    0 ≤ listMeanR l ∧ listMeanR l ≤ 1 := by
  unfold listMeanR
  exact ⟨mean_nonneg l (fun x hx => (h x hx).1), mean_le_one l (fun x hx => (h x hx).2)⟩

/-- The query-token overlap is a unit-interval ratio. -/
lemma overlapScore_mem (qt : Finset Str) (r : MResult) :
    0 ≤ overlapScore qt r ∧ overlapScore qt r ≤ 1 := by
  unfold overlapScore
  split
  · exact natRatio_mem _ _ (Finset.card_le_card Finset.inter_subset_left)
  · norm_num

/-- With result scores in the unit interval, each combined per-result
relevance score is in the unit interval. -/
lemma relevance_scores_mem (query : Str) (results : List MResult)
    (h : ∀ r ∈ results, 0 ≤ r.score ∧ r.score ≤ 1) :
    ∀ x ∈ relevance_scores query results, 0 ≤ x ∧ x ≤ 1 := by
  intro x hx
  unfold relevance_scores at hx
  obtain ⟨r, hr, rfl⟩ := List.mem_map.mp hx
  obtain ⟨h1, h2⟩ := h r hr
  obtain ⟨h3, h4⟩ := overlapScore_mem (tokensLower query) r
  constructor <;> linarith

/-- Each DCG discount denominator `log2(i + 2)` is positive. -/
lemma logb_idx_pos (i : ℕ) : 0 < Real.logb 2 ((i : ℝ) + 2) := by
  apply Real.logb_pos (by norm_num)
  have : (0 : ℝ) ≤ (i : ℝ) := Nat.cast_nonneg i
  linarith

/-- With result scores in the unit interval, the relevance metric is in the
unit interval. -/
lemma calculate_relevance_mem (query : Str) (results : List MResult)
    (h : ∀ r ∈ results, 0 ≤ r.score ∧ r.score ≤ 1) :
    0 ≤ calculate_relevance query results ∧ calculate_relevance query results ≤ 1 := by
  unfold calculate_relevance
  split
  · norm_num
  · split
    · rename_i hne hpos
      have hmem := relevance_scores_mem query results h
      have hterm : ∀ i ∈ Finset.range (relevance_scores query results).length,
          0 ≤ ((relevance_scores query results).getD i 0 : ℝ)
            / Real.logb 2 ((i : ℝ) + 2) := by
        intro i hi
        apply div_nonneg _ (le_of_lt (logb_idx_pos i))
        have hi' := Finset.mem_range.mp hi
        rw [List.getD_eq_getElem _ _ hi']
        exact_mod_cast (hmem _ (List.getElem_mem hi')).1
      have hw0 : 0 ≤ weightedSum (relevance_scores query results) := by
        unfold weightedSum
        exact Finset.sum_nonneg hterm
      have hwle : weightedSum (relevance_scores query results)
          ≤ idealSum (relevance_scores query results).length := by
        unfold weightedSum idealSum
        apply Finset.sum_le_sum
        intro i hi
        have hi' := Finset.mem_range.mp hi
        rw [div_le_div_iff_of_pos_right (logb_idx_pos i)]
        rw [List.getD_eq_getElem _ _ hi']
        exact_mod_cast (hmem _ (List.getElem_mem hi')).2
      exact ⟨div_nonneg hw0 (le_of_lt hpos), by rw [div_le_one hpos]; exact hwle⟩
    · norm_num

/-- Each pairwise content overlap in the coverage metric lies in the unit
interval. -/
lemma contentOverlaps_mem (ac : List Str) :
    ∀ x ∈ contentOverlaps ac, 0 ≤ x ∧ x ≤ 1 := by
  intro x hx
  unfold contentOverlaps at hx
  obtain ⟨p, _, hp⟩ := List.mem_filterMap.mp hx
  by_cases hc : pairTokens ac p.1 ≠ ∅ ∧ pairTokens ac p.2 ≠ ∅
  · rw [if_pos hc, Option.some_inj] at hp
    subst hp
    exact natRatio_mem _ _
      (le_max_of_le_left (Finset.card_le_card Finset.inter_subset_left))
  · rw [if_neg hc] at hp
    cases hp

/-- The content diversity lies in the unit interval. -/
lemma contentDiversity_mem (ac : List Str) :
    0 ≤ contentDiversity ac ∧ contentDiversity ac ≤ 1 := by
  unfold contentDiversity
  split
  · split
    · have h := contentOverlaps_mem ac
      have h0 : 0 ≤ (contentOverlaps ac).sum / ((contentOverlaps ac).length : ℚ) :=
        mean_nonneg _ (fun x hx => (h x hx).1)
      have h1 : (contentOverlaps ac).sum / ((contentOverlaps ac).length : ℚ) ≤ 1 :=
        mean_le_one _ (fun x hx => (h x hx).2)
      constructor <;> linarith
    · norm_num
  · norm_num

/-- The value `min(x, 1)` of a nonnegative value lies in the unit interval. -/
lemma min_one_mem {K : Type} [LinearOrderedField K] (x : K) (hx : 0 ≤ x) :
    0 ≤ min x 1 ∧ min x 1 ≤ 1 :=
  ⟨le_min hx zero_le_one, min_le_right _ _⟩

/-- The entity diversity lies in the unit interval. -/
lemma entityDiversity_mem (results : List MResult) :
    0 ≤ entityDiversity results ∧ entityDiversity results ≤ 1 := by
  unfold entityDiversity
  exact min_one_mem _ (by positivity)

/-- The type diversity lies in the unit interval. -/
lemma typeDiversity_mem (results : List MResult) :
    0 ≤ typeDiversity results ∧ typeDiversity results ≤ 1 := by
  unfold typeDiversity
  exact min_one_mem _ (by positivity)

/-- The coverage metric always lies in the unit interval. -/
lemma calculate_coverage_mem (results : List MResult) :
    0 ≤ calculate_coverage results ∧ calculate_coverage results ≤ 1 := by
  unfold calculate_coverage
  split
  · norm_num
  · obtain ⟨e0, e1⟩ := entityDiversity_mem results
    obtain ⟨c0, c1⟩ := contentDiversity_mem (results.map contentOr)
    obtain ⟨t0, t1⟩ := typeDiversity_mem results
    constructor <;> linarith

/-- The word-count length score lies in the unit interval. -/
lemma lengthScore_mem (wc : ℕ) : 0 ≤ lengthScore wc ∧ lengthScore wc ≤ 1 := by
  unfold lengthScore
  split
  · rename_i h
    constructor
    · positivity
    · rw [div_le_one (by norm_num)]
      exact_mod_cast Nat.le_of_lt (Nat.lt_of_lt_of_le h (by norm_num))
  · split
    · rename_i h h'
      have hm : min (((wc : ℚ) - 500) / 500) (1/2) ≤ 1/2 := min_le_right _ _
      have hm0 : 0 ≤ min (((wc : ℚ) - 500) / 500) (1/2) := by
        apply le_min _ (by norm_num)
        have : (500 : ℚ) ≤ (wc : ℚ) := by exact_mod_cast Nat.le_of_lt h'
        apply div_nonneg (by linarith) (by norm_num)
      constructor <;> linarith
    · norm_num

/-- The population standard deviation model is nonnegative. -/
lemma lengthsStd_nonneg (l : List ℚ) : 0 ≤ lengthsStd l := by
  unfold lengthsStd
  split
  · exact Real.sqrt_nonneg _
  · norm_num

/-- The coherence sub-score lies in the unit interval. -/
lemma coherenceScores_mem (sentences : List Str) :
    ∀ x ∈ coherenceScores sentences, 0 ≤ x ∧ x ≤ 1 := by
  intro x hx
  unfold coherenceScores at hx
  split at hx
  · rw [List.mem_singleton] at hx
    subst hx
    have hlq0 : (0:ℝ) ≤ 1 - min
        (|(listMeanQ ((sentences.take 10).map (fun s => ((words s).length : ℚ))) : ℝ) - 15|
          / 15) 1 := by
      have := min_le_right
        (|(listMeanQ ((sentences.take 10).map (fun s => ((words s).length : ℚ))) : ℝ) - 15|
          / 15) 1
      linarith
    have hlq1 : 1 - min
        (|(listMeanQ ((sentences.take 10).map (fun s => ((words s).length : ℚ))) : ℝ) - 15|
          / 15) 1 ≤ 1 := by
      have : (0:ℝ) ≤ min
          (|(listMeanQ ((sentences.take 10).map (fun s => ((words s).length : ℚ))) : ℝ) - 15|
            / 15) 1 := le_min (by positivity) zero_le_one
      linarith
    obtain ⟨hv0, hv1⟩ := min_one_mem
      (lengthsStd ((sentences.take 10).map (fun s => ((words s).length : ℚ))) / 5)
      (by have := lengthsStd_nonneg ((sentences.take 10).map (fun s => ((words s).length : ℚ)))
          positivity)
    constructor <;> linarith
  · cases hx

/-- The F1 combination of two unit-interval ratios lies in the unit
interval. -/
lemma tokenF1_mem (p r : ℚ) (hp : 0 ≤ p ∧ p ≤ 1) (hr : 0 ≤ r ∧ r ≤ 1) :
    0 ≤ tokenF1 p r ∧ tokenF1 p r ≤ 1 := by
  unfold tokenF1
  split
  · rename_i hpr
    constructor
    · apply div_nonneg _ (le_of_lt hpr)
      nlinarith [hp.1, hr.1]
    · rw [div_le_one hpr]
      nlinarith [hp.1, hp.2, hr.1, hr.2]
  · norm_num

/-- Every sub-score gathered by `_calculate_answer_quality` lies in the
unit interval. -/
lemma qualityScores_mem (answer query : Str) (gt : Option Str) :
    ∀ x ∈ qualityScores answer query gt, 0 ≤ x ∧ x ≤ 1 := by
  intro x hx
  unfold qualityScores at hx
  rcases List.mem_append.mp hx with hx | hgt
  rcases List.mem_append.mp hx with hx | hco
  rcases List.mem_append.mp hx with hcm | hls
  · obtain ⟨y, hy, rfl⟩ := List.mem_map.mp hcm
    unfold completenessScores at hy
    split at hy
    · rw [List.mem_singleton] at hy
      subst hy
      have hb := natRatio_mem
        ((tokensLower query ∩ tokensLower (answer.take 2000)).card)
        ((tokensLower query).card)
        (Finset.card_le_card Finset.inter_subset_left)
      constructor
      · exact_mod_cast hb.1
      · exact_mod_cast hb.2
    · cases hy
  · rw [List.mem_singleton] at hls
    subst hls
    have := lengthScore_mem (words (answer.take 2000)).length
    constructor
    · exact_mod_cast this.1
    · exact_mod_cast this.2
  · exact coherenceScores_mem _ x hco
  · obtain ⟨y, hy, rfl⟩ := List.mem_map.mp hgt
    have hy' : 0 ≤ y ∧ y ≤ 1 := by
      cases gt with
      | none => simp [gtScores] at hy
      | some g =>
        simp only [gtScores] at hy
        by_cases h1 : g = []
        · rw [if_pos h1] at hy
          cases hy
        · rw [if_neg h1] at hy
          by_cases h2 : tokensLower (g.take 2000) ≠ ∅
              ∧ tokensLower (answer.take 2000) ≠ ∅
          · rw [if_pos h2, List.mem_singleton] at hy
            subst hy
            exact tokenF1_mem _ _
              (natRatio_mem _ _
                (Finset.card_le_card Finset.inter_subset_right))
              (natRatio_mem _ _
                (Finset.card_le_card Finset.inter_subset_left))
          · rw [if_neg h2] at hy
            cases hy
    constructor
    · exact_mod_cast hy'.1
    · exact_mod_cast hy'.2

/-- The answer-quality metric always lies in the unit interval. -/
lemma calculate_answer_quality_mem (answer query : Str) (gt : Option Str) :
    0 ≤ calculate_answer_quality answer query gt
      ∧ calculate_answer_quality answer query gt ≤ 1 := by
  unfold calculate_answer_quality
  split
  · norm_num
  · split
    · exact listMeanR_mem _ (qualityScores_mem answer query gt)
    · norm_num

/-- The faithfulness metric always lies in the unit interval. -/
lemma calculate_faithfulness_mem (answer : Str) (results : List MResult) :
    0 ≤ calculate_faithfulness answer results
      ∧ calculate_faithfulness answer results ≤ 1 := by
  unfold calculate_faithfulness
  split
  · norm_num
  · split
    · norm_num
    · have hb : 0 ≤ faithBase (answer.take 2000) results
          ∧ faithBase (answer.take 2000) results ≤ 1 := by
        unfold faithBase
        exact natRatio_mem _ _ (Finset.card_le_card Finset.inter_subset_left)
      split
      · exact hb
      · have hg : 0 ≤ entityGrounding (answer.take 2000) results
            ∧ entityGrounding (answer.take 2000) results ≤ 1 := by
          unfold entityGrounding
          exact natRatio_mem _ _ (Finset.card_filter_le _ _)
        constructor <;> [linarith [hb.1, hg.1]; linarith [hb.2, hg.2]]

/-- At a single result whose stored similarity score is 2 and a query that
yields no tokens, the relevance metric evaluates to 1.4. -/
lemma relevance_cex_value :
    calculate_relevance ("a".toList)
      [⟨"chunk".toList, 2, [], [], none, []⟩] = 7/5 := by
  have h1 : relevance_scores ("a".toList)
      [⟨"chunk".toList, 2, [], [], none, []⟩] = [7/5] := by
    have htok : tokensLower ("a".toList) = ∅ := by decide
    unfold relevance_scores overlapScore
    simp only [List.map_cons, List.map_nil, htok]
    norm_num
  have hlog : Real.logb 2 (((0 : ℕ) : ℝ) + 2) = 1 := by
    have h2 : (((0 : ℕ) : ℝ) + 2) = 2 := by norm_num
    rw [h2]
    exact Real.logb_self_eq_one (by norm_num)
  have hw : weightedSum [(7/5 : ℚ)] = 7/5 := by
    unfold weightedSum
    rw [show ([(7/5 : ℚ)]).length = 1 from rfl, Finset.sum_range_one,
      show ([(7/5 : ℚ)]).getD 0 0 = 7/5 from rfl, hlog]
    norm_num
  have hi : idealSum 1 = 1 := by
    unfold idealSum
    rw [Finset.sum_range_one, hlog]
    norm_num
  unfold calculate_relevance
  rw [h1, show ([(7/5 : ℚ)]).length = 1 from rfl, hi, hw]
  norm_num

/-- Claim C1 counterexample: `evaluate` performs no clamping — a single
result carrying score 2.0 yields a relevance metric of 1.4, outside [0,1]. -/
theorem C1_evaluate_not_clamped_counterexample :
    1 < (evaluate ("a".toList) []
      [⟨"chunk".toList, 2, [], [], none, []⟩] none).relevance_score := by
  show 1 < calculate_relevance ("a".toList) [⟨"chunk".toList, 2, [], [], none, []⟩]
  rw [relevance_cex_value]
  norm_num

/-- Claim C1 (amended): provided every result's stored score lies in [0,1],
all four metrics returned by `evaluate` lie in [0,1] (the three
score-independent metrics unconditionally so), and the overall score equals
the arithmetic mean of the four returned metrics. -/
theorem C1_evaluate_bounds_amended (query answer : Str) (results : List MResult)
    (gt : Option Str) (h : ∀ r ∈ results, 0 ≤ r.score ∧ r.score ≤ 1) :
    (0 ≤ (evaluate query answer results gt).relevance_score
      ∧ (evaluate query answer results gt).relevance_score ≤ 1)
    ∧ (0 ≤ (evaluate query answer results gt).coverage_score
      ∧ (evaluate query answer results gt).coverage_score ≤ 1)
    ∧ (0 ≤ (evaluate query answer results gt).answer_quality
      ∧ (evaluate query answer results gt).answer_quality ≤ 1)
    ∧ (0 ≤ (evaluate query answer results gt).faithfulness
      ∧ (evaluate query answer results gt).faithfulness ≤ 1)
    ∧ overall_score (evaluate query answer results gt)
        = ((evaluate query answer results gt).relevance_score
          + (evaluate query answer results gt).coverage_score
          + (evaluate query answer results gt).answer_quality
          + (evaluate query answer results gt).faithfulness) / 4 := by
  refine ⟨calculate_relevance_mem query results h, ⟨?_, ?_⟩, ?_, ⟨?_, ?_⟩, rfl⟩
  · show (0 : ℝ) ≤ ((calculate_coverage results : ℚ) : ℝ)
    exact_mod_cast (calculate_coverage_mem results).1
  · show ((calculate_coverage results : ℚ) : ℝ) ≤ 1
    exact_mod_cast (calculate_coverage_mem results).2
  · exact calculate_answer_quality_mem answer query gt
  · show (0 : ℝ) ≤ ((calculate_faithfulness answer results : ℚ) : ℝ)
    exact_mod_cast (calculate_faithfulness_mem answer results).1
  · show ((calculate_faithfulness answer results : ℚ) : ℝ) ≤ 1
    exact_mod_cast (calculate_faithfulness_mem answer results).2

/-- Claim C1 (amended) witness: the bounds at a concrete empty input. -/
theorem C1_evaluate_bounds_amended_witness :
    (0 ≤ (evaluate [] [] [] none).relevance_score
      ∧ (evaluate [] [] [] none).relevance_score ≤ 1)
    ∧ (0 ≤ (evaluate [] [] [] none).coverage_score
      ∧ (evaluate [] [] [] none).coverage_score ≤ 1)
    ∧ (0 ≤ (evaluate [] [] [] none).answer_quality
      ∧ (evaluate [] [] [] none).answer_quality ≤ 1)
    ∧ (0 ≤ (evaluate [] [] [] none).faithfulness
      ∧ (evaluate [] [] [] none).faithfulness ≤ 1)
    ∧ overall_score (evaluate [] [] [] none)
        = ((evaluate [] [] [] none).relevance_score
          + (evaluate [] [] [] none).coverage_score
          + (evaluate [] [] [] none).answer_quality
          + (evaluate [] [] [] none).faithfulness) / 4 :=
  C1_evaluate_bounds_amended [] [] [] none (by simp)

/-- Claim C9: coverage, answer quality and faithfulness lie in [0,1] for
every input with no clamping step; relevance is bounded whenever the
externally supplied scores are, and leaves [0,1] when a score does. -/
theorem C9_metric_bounds_no_clamp :
    (∀ (answer query : Str) (results : List MResult) (gt : Option Str),
      (0 ≤ calculate_coverage results ∧ calculate_coverage results ≤ 1)
      ∧ (0 ≤ calculate_answer_quality answer query gt
          ∧ calculate_answer_quality answer query gt ≤ 1)
      ∧ (0 ≤ calculate_faithfulness answer results
          ∧ calculate_faithfulness answer results ≤ 1))
    ∧ (∀ (query : Str) (results : List MResult),
        (∀ r ∈ results, 0 ≤ r.score ∧ r.score ≤ 1) →
        0 ≤ calculate_relevance query results
          ∧ calculate_relevance query results ≤ 1)
    ∧ (∃ (query : Str) (results : List MResult),
        1 < calculate_relevance query results) :=
  ⟨fun answer query results gt =>
    ⟨calculate_coverage_mem results, calculate_answer_quality_mem answer query gt,
     calculate_faithfulness_mem answer results⟩,
   fun query results h => calculate_relevance_mem query results h,
   ⟨"a".toList, [⟨"chunk".toList, 2, [], [], none, []⟩],
    by rw [relevance_cex_value]; norm_num⟩⟩

/-- The two example contents, as the coverage metric reads them. -/
lemma jac_contentOr : [jacA, jacB].map contentOr
    = ["aaa bbb".toList, "bbb ccc".toList] := by decide

/-- The code's content diversity at the example: the single pairwise
overlap is `1 / max 2 2 = 1/2`, so diversity is `1/2`. -/
lemma jac_cd : contentDiversity (["aaa bbb".toList, "bbb ccc".toList]) = 1/2 := by
  have hov : contentOverlaps ["aaa bbb".toList, "bbb ccc".toList] = [(1 : ℚ) / 2] := by
    unfold contentOverlaps
    rw [show pairIdx (min 5 (["aaa bbb".toList, "bbb ccc".toList] : List Str).length)
        = [(0, 1)] from by decide]
    simp only [List.filterMap_cons, List.filterMap_nil]
    rw [if_pos (by decide)]
    dsimp only
    rw [show (pairTokens ["aaa bbb".toList, "bbb ccc".toList] 0
          ∩ pairTokens ["aaa bbb".toList, "bbb ccc".toList] 1).card = 1 from by decide,
        show (pairTokens ["aaa bbb".toList, "bbb ccc".toList] 0).card = 2 from by decide,
        show (pairTokens ["aaa bbb".toList, "bbb ccc".toList] 1).card = 2 from by decide]
    rw [max_self]
    norm_num
  unfold contentDiversity
  rw [hov, if_pos (by decide), if_pos (List.cons_ne_nil _ _)]
  norm_num

/-- The claimed Jaccard content diversity at the example: the single
pairwise Jaccard overlap is `1/3`, so diversity is `2/3`. -/
lemma jac_scd : specContentDiversity (["aaa bbb".toList, "bbb ccc".toList]) = 2/3 := by
  unfold specContentDiversity specJaccard
  rw [if_pos (by decide)]
  rw [show pairIdx (min 5 (["aaa bbb".toList, "bbb ccc".toList] : List Str).length)
      = [(0, 1)] from by decide]
  simp only [List.map_cons, List.map_nil]
  rw [show (pairTokens ["aaa bbb".toList, "bbb ccc".toList] 0
        ∩ pairTokens ["aaa bbb".toList, "bbb ccc".toList] 1).card = 1 from by decide,
      show (pairTokens ["aaa bbb".toList, "bbb ccc".toList] 0
        ∪ pairTokens ["aaa bbb".toList, "bbb ccc".toList] 1).card = 3 from by decide]
  norm_num

/-- No entities are collected at the example, so entity diversity is 0. -/
lemma jac_ed : entityDiversity [jacA, jacB] = 0 := by
  unfold entityDiversity
  rw [show (coverageEntities [jacA, jacB]).card = 0 from by decide]
  norm_num

/-- One distinct result type at the example, so type diversity is `1/3`. -/
lemma jac_td : typeDiversity [jacA, jacB] = 1/3 := by
  unfold typeDiversity
  rw [show (coverageTypes [jacA, jacB]).card = 1 from by decide]
  rw [min_eq_left (by norm_num)]
  norm_num

/-- Claim C2 counterexample: at two chunk results with token sets
`{aaa, bbb}` and `{bbb, ccc}` the code's coverage is
`0.3 * (1/2) + 0.3 * (1/3) = 1/4`, while the claimed Jaccard-based formula
gives `0.3 * (2/3) + 0.3 * (1/3) = 3/10`. -/
theorem C2_coverage_jaccard_counterexample :
    calculate_coverage [jacA, jacB] ≠ specCoverage [jacA, jacB] := by
  have h1 : calculate_coverage [jacA, jacB] = 1/4 := by
    unfold calculate_coverage
    rw [if_neg (List.cons_ne_nil _ _), jac_ed, jac_contentOr, jac_cd, jac_td]
    norm_num
  have h2 : specCoverage [jacA, jacB] = 3/10 := by
    unfold specCoverage
    rw [jac_ed, jac_contentOr, jac_scd, jac_td]
    norm_num
  rw [h1, h2]
  norm_num

/-- The amended content diversity agrees with the source computation. -/
lemma amendedCD_eq_contentDiversity (ac : List Str) :
    amendedContentDiversity ac = contentDiversity ac := rfl

/-- Claim C2 (amended): for at least two results, coverage equals
`0.4 x entity_diversity + 0.3 x content_diversity + 0.3 x type_diversity`
with content diversity computed as one minus the mean pairwise overlap
`|A∩B| / max(|A|,|B|)` over the pairs of the first five results whose
truncated token sets are both non-empty (1/2 when no such pair exists);
with fewer than two results the content diversity is 0. -/
theorem C2_coverage_formula_amended :
    (∀ results : List MResult, 2 ≤ results.length →
      calculate_coverage results = amendedCoverage results)
    ∧ (∀ results : List MResult, results.length < 2 →
      amendedContentDiversity (results.map contentOr) = 0) := by
  constructor
  · intro results h2
    have hne : results ≠ [] := by
      intro h
      subst h
      simp at h2
    unfold calculate_coverage amendedCoverage
    rw [if_neg hne, amendedCD_eq_contentDiversity]
  · intro results h2
    unfold amendedContentDiversity
    have hnot : ¬ (1 < (results.map contentOr).length) := by
      simp only [List.length_map]
      omega
    rw [if_neg hnot]

open RelationshipExtractor

/-- Updating the weight leaves the deduplication key unchanged. -/
lemma relKey_weight (r : Rel) (w : ℚ) : relKey { r with weight := w } = relKey r := rfl

/-- Bumping a different key does not change a key's filtered records. -/
lemma filterK_bumpFirst_ne (key k : Str × Str × Str) (h : k ≠ key) (l : List Rel) :
    filterK key (bumpFirst k l) = filterK key l := by
  induction l with
  | nil => rfl
  | cons r rest ih =>
    unfold bumpFirst
    by_cases hr : relKey r = k
    · rw [if_pos hr]
      have hrk : ¬ (relKey r = key) := by
        rw [hr]
        exact h
      have hrk' : ¬ (relKey { r with weight := r.weight + 1 } = key) := by
        rw [relKey_weight]
        exact hrk
      unfold filterK
      rw [List.filter_cons, List.filter_cons,
        if_neg (by simpa using hrk'), if_neg (by simpa using hrk)]
    · rw [if_neg hr]
      unfold filterK at ih ⊢
      rw [List.filter_cons, List.filter_cons]
      by_cases hd : relKey r = key
      · rw [if_pos (by simpa using hd), if_pos (by simpa using hd), ih]
      · rw [if_neg (by simpa using hd), if_neg (by simpa using hd)]
        exact ih

/-- Bumping a key's first record updates the head of its filtered records. -/
lemma filterK_bumpFirst_eq (key : Str × Str × Str) (l : List Rel) :
    filterK key (bumpFirst key l)
      = match filterK key l with
        | [] => []
        | a :: t => { a with weight := a.weight + 1 } :: t := by
  induction l with
  | nil => rfl
  | cons r rest ih =>
    unfold bumpFirst
    by_cases hr : relKey r = key
    · rw [if_pos hr]
      unfold filterK
      rw [List.filter_cons, List.filter_cons,
        if_pos (by simp [relKey_weight, hr]), if_pos (by simpa using hr)]
    · rw [if_neg hr]
      unfold filterK at ih ⊢
      rw [List.filter_cons, List.filter_cons,
        if_neg (by simpa using hr), if_neg (by simpa using hr)]
      exact ih

/-- Filtering a key out of an appended record. -/
lemma filterK_append (key : Str × Str × Str) (l : List Rel) (r : Rel) :
    filterK key (l ++ [r])
      = filterK key l ++ if relKey r = key then [r] else [] := by
  unfold filterK
  rw [List.filter_append]
  congr 1
  by_cases h : relKey r = key
  · rw [if_pos h]
    simp [h]
  · rw [if_neg h]
    simp [h]

/-- Python `key in seen` in the fold corresponds to a non-empty filtered list. -/
lemma any_key_iff (l : List Rel) (k : Str × Str × Str) :
    l.any (fun s => decide (relKey s = k)) = true ↔ filterK k l ≠ [] := by
  rw [List.any_eq_true]
  unfold filterK
  constructor
  · rintro ⟨x, hx, hpx⟩ hnil
    rw [List.filter_eq_nil_iff] at hnil
    exact hnil x hx hpx
  · intro hne
    by_contra hno
    push_neg at hno
    apply hne
    rw [List.filter_eq_nil_iff]
    intro a ha
    exact hno a ha

/-- The per-key trace of the deduplication fold: the records surviving for
`key` are exactly the fold of its valid occurrences onto the accumulator's
(at most one) record for `key`. -/
lemma dedupAux_filterK (key : Str × Str × Str) :
    ∀ (rest acc : List Rel), (∀ k, (filterK k acc).length ≤ 1) →
      filterK key (dedupAux acc rest)
        = addOcc (filterK key acc)
            (rest.filter (fun r => relValid r && decide (relKey r = key))) := by
  intro rest
  induction rest with
  | nil =>
    intro acc hinv
    unfold dedupAux
    rw [List.filter_nil]
    rcases hacc : filterK key acc with _ | ⟨a, t⟩
    · rfl
    · have hle := hinv key
      rw [hacc] at hle
      simp only [List.length_cons] at hle
      have ht : t = [] := List.length_eq_zero.mp (by omega)
      subst ht
      unfold addOcc
      simp
  | cons r rest ih =>
    intro acc hinv
    unfold dedupAux
    by_cases hv : relValid r = true
    · rw [if_pos hv]
      by_cases hany : acc.any (fun s => decide (relKey s = relKey r)) = true
      · rw [if_pos hany]
        have hinv' : ∀ k, (filterK k (bumpFirst (relKey r) acc)).length ≤ 1 := by
          intro k
          by_cases hk : relKey r = k
          · rw [← hk, filterK_bumpFirst_eq]
            rcases hacc : filterK (relKey r) acc with _ | ⟨a, t⟩
            · simp
            · have hle := hinv (relKey r)
              rw [hacc] at hle
              simpa using hle
          · rw [filterK_bumpFirst_ne k (relKey r) hk]
            exact hinv k
        rw [ih (bumpFirst (relKey r) acc) hinv', List.filter_cons]
        by_cases hkey : relKey r = key
        · rw [if_pos (by simp [hv, hkey]), hkey, filterK_bumpFirst_eq]
          have hne : filterK (relKey r) acc ≠ [] := (any_key_iff acc (relKey r)).mp hany
          rw [hkey] at hne
          rcases hacc : filterK key acc with _ | ⟨a, t⟩
          · exact absurd hacc hne
          · have hle := hinv key
            rw [hacc] at hle
            simp only [List.length_cons] at hle
            have ht : t = [] := List.length_eq_zero.mp (by omega)
            subst ht
            unfold addOcc
            simp only [List.length_cons, List.cons.injEq, Rel.mk.injEq, and_true, true_and]
            push_cast
            ring
        · rw [if_neg (by simp [hkey]), filterK_bumpFirst_ne key (relKey r) hkey]
      · rw [if_neg hany]
        have hcur : filterK (relKey r) acc = [] := by
          by_contra hne
          exact hany ((any_key_iff acc (relKey r)).mpr hne)
        have hinv' : ∀ k, (filterK k (acc ++ [r])).length ≤ 1 := by
          intro k
          rw [filterK_append]
          by_cases hk : relKey r = k
          · rw [if_pos hk, ← hk, hcur]
            simp
          · rw [if_neg hk]
            simpa using hinv k
        rw [ih (acc ++ [r]) hinv', filterK_append, List.filter_cons]
        by_cases hkey : relKey r = key
        · rw [if_pos hkey, if_pos (by simp [hv, hkey])]
          rw [hkey] at hcur
          rw [hcur]
          rfl
        · rw [if_neg hkey, if_neg (by simp [hkey]), List.append_nil]
    · rw [if_neg hv, ih acc hinv, List.filter_cons, if_neg (by simp [hv])]

/-- Claim C3: when a case-insensitive `(source, target, label)` key occurs
exactly twice among the valid relationships (in order `r1` then `r2`),
deduplication keeps one single record for it — `r1` with weight
`r1.weight + 1` (so 1.0 becomes 2.0) — and the built graph contains the one
undirected edge for it whenever both endpoints are graph nodes. -/
theorem C3_duplicate_relationship_merges (rels : List Rel) (r1 r2 : Rel)
    (hocc : rels.filter (fun r => relValid r && decide (relKey r = relKey r1))
      = [r1, r2]) :
    filterK (relKey r1) (deduplicate_relationships rels)
        = [{ r1 with weight := r1.weight + 1 }]
    ∧ ∀ entities : List GraphBuilder.Entity,
        stripStr r1.source
            ∈ (GraphBuilder.build entities (deduplicate_relationships rels)).nodes →
        stripStr r1.target
            ∈ (GraphBuilder.build entities (deduplicate_relationships rels)).nodes →
        s(stripStr r1.source, stripStr r1.target)
          ∈ (GraphBuilder.build entities (deduplicate_relationships rels)).edges := by
  have hmain : filterK (relKey r1) (deduplicate_relationships rels)
      = [{ r1 with weight := r1.weight + 1 }] := by
    unfold deduplicate_relationships
    rw [dedupAux_filterK (relKey r1) rels [] (fun k => by simp [filterK]), hocc]
    unfold addOcc filterK
    simp
  refine ⟨hmain, ?_⟩
  intro entities hs ht
  have hr1mem : r1 ∈ rels.filter
      (fun r => relValid r && decide (relKey r = relKey r1)) := by
    rw [hocc]
    exact List.mem_cons_self _ _
  have hvalid : relValid r1 = true := by
    have h2 := (List.mem_filter.mp hr1mem).2
    simp only [Bool.and_eq_true] at h2
    exact h2.1
  have hvalid' : (stripStr r1.source ≠ [] ∧ stripStr r1.target ≠ [])
      ∧ stripStr r1.relationship ≠ [] := by
    unfold relValid at hvalid
    simpa using hvalid
  have hsrc : stripStr r1.source ≠ [] := hvalid'.1.1
  have htgt : stripStr r1.target ≠ [] := hvalid'.1.2
  have hmem : { r1 with weight := r1.weight + 1 } ∈ deduplicate_relationships rels := by
    have hmem2 : { r1 with weight := r1.weight + 1 }
        ∈ filterK (relKey r1) (deduplicate_relationships rels) := by
      rw [hmain]
      exact List.mem_cons_self _ _
    unfold filterK at hmem2
    exact List.mem_of_mem_filter hmem2
  show s(stripStr r1.source, stripStr r1.target)
    ∈ ((deduplicate_relationships rels).filterMap (fun rel =>
      if stripStr rel.source ≠ [] ∧ stripStr rel.target ≠ []
          ∧ stripStr rel.source ∈ GraphBuilder.buildNodes entities
          ∧ stripStr rel.target ∈ GraphBuilder.buildNodes entities then
        some s(stripStr rel.source, stripStr rel.target)
      else none)).toFinset
  rw [List.mem_toFinset, List.mem_filterMap]
  refine ⟨{ r1 with weight := r1.weight + 1 }, hmem, ?_⟩
  rw [if_pos ⟨hsrc, htgt, hs, ht⟩]

/-- Claim C3 witness: two extraction passes both produce
`(A, B, FOUNDED)` with weight 1; deduplication yields the single record at
weight 2, and the graph over entities `A`, `B` has the one edge. -/
theorem C3_duplicate_relationship_merges_witness :
    filterK (relKey ⟨"A".toList, "B".toList, "FOUNDED".toList, [], 1, "c1".toList⟩)
        (deduplicate_relationships
          [⟨"A".toList, "B".toList, "FOUNDED".toList, [], 1, "c1".toList⟩,
           ⟨"A".toList, "B".toList, "FOUNDED".toList, [], 1, "c2".toList⟩])
      = [{ (⟨"A".toList, "B".toList, "FOUNDED".toList, [], 1, "c1".toList⟩ : Rel) with
            weight := (⟨"A".toList, "B".toList, "FOUNDED".toList, [], 1,
              "c1".toList⟩ : Rel).weight + 1 }] :=
  (C3_duplicate_relationship_merges
    [⟨"A".toList, "B".toList, "FOUNDED".toList, [], 1, "c1".toList⟩,
     ⟨"A".toList, "B".toList, "FOUNDED".toList, [], 1, "c2".toList⟩]
    ⟨"A".toList, "B".toList, "FOUNDED".toList, [], 1, "c1".toList⟩
    ⟨"A".toList, "B".toList, "FOUNDED".toList, [], 1, "c2".toList⟩
    (by decide)).1

/-- Claim C8: for distinct graph nodes and any Leiden partition of the
vertex index set, the detected communities partition the node set: the
union of all member lists is exactly the node set, and distinct
communities are pairwise disjoint. -/
theorem C8_communities_partition (nodes : List Str) (parts : List (List ℕ))
    (hnodes : nodes.Nodup)
    (hpart : CommunityDetector.leidenIsPartition nodes.length parts) :
    (CommunityDetector.detect nodes parts).flatten.toFinset = nodes.toFinset
    ∧ (CommunityDetector.detect nodes parts).Pairwise
        (fun c₁ c₂ => ∀ x ∈ c₁, x ∉ c₂) := by
  unfold CommunityDetector.detect
  unfold CommunityDetector.leidenIsPartition at hpart
  have hmemidx : ∀ c ∈ parts, ∀ i ∈ c, i < nodes.length := by
    intro c hc i hi
    exact List.mem_range.mp (hpart.mem_iff.mp (List.mem_flatten.mpr ⟨c, hc, hi⟩))
  constructor
  · ext x
    rw [List.mem_toFinset, List.mem_toFinset]
    constructor
    · intro hx
      rw [List.mem_flatten] at hx
      obtain ⟨cl, hcl, hxcl⟩ := hx
      obtain ⟨c, hc, rfl⟩ := List.mem_map.mp hcl
      obtain ⟨i, hi, rfl⟩ := List.mem_map.mp hxcl
      have hlt := hmemidx c hc i hi
      rw [List.getD_eq_getElem _ _ hlt]
      exact List.getElem_mem hlt
    · intro hx
      obtain ⟨i, hlt, rfl⟩ := List.mem_iff_getElem.mp hx
      have hiflat : i ∈ parts.flatten := hpart.mem_iff.mpr (List.mem_range.mpr hlt)
      rw [List.mem_flatten] at hiflat
      obtain ⟨c, hc, hic⟩ := hiflat
      rw [List.mem_flatten]
      refine ⟨c.map (fun idx => nodes.getD idx []), List.mem_map_of_mem _ hc, ?_⟩
      rw [List.mem_map]
      exact ⟨i, hic, by rw [List.getD_eq_getElem _ _ hlt]⟩
  · rw [List.pairwise_map]
    have hnd : parts.flatten.Nodup := hpart.nodup_iff.mpr (List.nodup_range _)
    have hdisj : parts.Pairwise List.Disjoint := (List.nodup_flatten.mp hnd).2
    refine List.Pairwise.imp_of_mem ?_ hdisj
    intro c₁ c₂ h1 h2 hd x hx1 hx2
    obtain ⟨i, hi, rfl⟩ := List.mem_map.mp hx1
    obtain ⟨j, hj, hij⟩ := List.mem_map.mp hx2
    have hi' := hmemidx c₁ h1 i hi
    have hj' := hmemidx c₂ h2 j hj
    rw [List.getD_eq_getElem _ _ hj', List.getD_eq_getElem _ _ hi'] at hij
    have hji : j = i := (List.Nodup.getElem_inj_iff hnodes).mp hij
    subst hji
    exact hd hi hj

/-- Claim C8 witness: three distinct nodes partitioned as
`{a, b} ∪ {c}`. -/
theorem C8_communities_partition_witness :
    (CommunityDetector.detect ["a".toList, "b".toList, "c".toList]
        [[0, 1], [2]]).flatten.toFinset
      = (["a".toList, "b".toList, "c".toList] : List Str).toFinset
    ∧ (CommunityDetector.detect ["a".toList, "b".toList, "c".toList]
        [[0, 1], [2]]).Pairwise (fun c₁ c₂ => ∀ x ∈ c₁, x ∉ c₂) :=
  C8_communities_partition ["a".toList, "b".toList, "c".toList] [[0, 1], [2]]
    (by decide) (by unfold CommunityDetector.leidenIsPartition; decide)

end GraphRAG
